import Mathlib

/-!
Verification development for the agent-loop-runner VS Code extension
(`src/extension.ts`).  The orchestration core is shallowly embedded:

* JS strings are modelled as Lean `String`s, with the string operations the
  source uses (trim, toUpperCase, split, startsWith, replaceAll, regex line
  matchers) re-implemented as structural recursions over the character list
  (`String.data`).  JS `\s` is modelled by `Char.isWhitespace` (space, tab,
  CR, LF) — the artifacts the source handles are ASCII.
* `Date.now()` timestamps are `Nat` milliseconds.
* `clampInt` is modelled on `Nat` (every call site clamps into a positive
  range, so a negative JS input behaves exactly like `0` here).
* The stateful panel (`AgentLoopRunnerPanel`) becomes a `PanelState` record;
  each message/watcher handler becomes a state-transition function.
* The `runJob` attempt loop's per-job mutations become a `JobEvent` step
  function, and `waitForTerminalStatus` becomes a recursion over a list of
  "ticks" (each tick supplies what the loop body reads from the outside
  world: the `running` flag, `Date.now()`, and the status file's content).
-/

set_option maxRecDepth 4000

namespace AgentLoopRunner

/-! ## Character-level string helpers (JS string operations) -/

/-- The character sequence of a string (JS strings as char lists). -/
def chars (s : String) : List Char := s.data

/-- Rebuild a string from its characters. -/
def ofChars (l : List Char) : String := String.mk l

/-- JS `String.prototype.trim` (whitespace from both ends). -/
def trimChars (l : List Char) : List Char :=
  ((l.dropWhile Char.isWhitespace).reverse.dropWhile Char.isWhitespace).reverse

/-- JS `toUpperCase` (ASCII). -/
def upperChars (l : List Char) : List Char := l.map Char.toUpper

/-- JS `toLowerCase` (ASCII). -/
def lowerChars (l : List Char) : List Char := l.map Char.toLower

/-- Split a character list at every occurrence of the given character. -/
def splitChar (c : Char) : List Char → List (List Char)
  | [] => [[]]
  | x :: xs =>
    match splitChar c xs with
    | [] => [[]]
    | y :: ys => if x = c then [] :: y :: ys else (x :: y) :: ys

/-- JS `||` on optional values (the source only applies it to values that are
either `undefined` or non-empty strings, where `||` picks the first present). -/
def jsOr {α : Type} (a b : Option α) : Option α :=
  match a with
  | some x => some x
  | none => b

/-- JS `a || b` where `a` is an optional string and `""` counts as absent. -/
def jsOrStr (a : Option String) (b : String) : String :=
  match a with
  | some s => if s = "" then b else s
  | none => b

/-- Does `needle` occur as a contiguous run inside `hay`? -/
def charsContain (hay needle : List Char) : Bool :=
  match hay with
  | [] => needle.isEmpty
  | _ :: rest => needle.isPrefixOf hay || charsContain rest needle

/-- JS `String.prototype.includes`. -/
def strContains (hay needle : String) : Bool :=
  charsContain (chars hay) (chars needle)

/-! ## Status Protocol Codec (`parseStatusFile`, extension.ts 1523–1557) -/

/-- The `PASS`/`FAIL` marker value. -/
inductive AgentStatus
  | PASS
  | FAIL
deriving DecidableEq, Repr

/-- Line match for `/^AGENT_STATUS:\s*(PASS|FAIL)\s*$/i` applied to the
trimmed line; the captured keyword is upper-cased by the source. -/
def matchAgentStatus (line : List Char) : Option AgentStatus :=
  let u := upperChars (trimChars line)
  if (chars "AGENT_STATUS:").isPrefixOf u then
    let rest := trimChars (u.drop 13)
    if rest = chars "PASS" then some .PASS
    else if rest = chars "FAIL" then some .FAIL
    else none
  else none

/-- Line match for `/^Key:\s*(.+)\s*$/i` applied to the trimmed line; the
source then trims the captured group, so the value is the trimmed remainder
after the colon, and must be non-empty. -/
def matchKeyValue (key : String) (line : List Char) : Option String :=
  let t := trimChars line
  let k := upperChars (chars key) ++ [':']
  if k.isPrefixOf (upperChars t) then
    let v := trimChars (t.drop k.length)
    if v.isEmpty then none else some (ofChars v)
  else none

/-- Models `StatusFileMarkers` from the source: the parsed status record. -/
structure StatusFileMarkers where
  agentStatus : Option AgentStatus := none
  featureName : Option String := none
  timestamp : Option String := none
  summary : Option String := none
  specPath : Option String := none
  reason : Option String := none
deriving DecidableEq, Repr

/-- One loop iteration of `parseStatusFile`: the six independent regex blocks
each overwrite their field when the line matches (and keep it otherwise). -/
def parseLine (out : StatusFileMarkers) (line : List Char) : StatusFileMarkers :=
  { agentStatus := jsOr (matchAgentStatus line) out.agentStatus
    featureName := jsOr (matchKeyValue "FeatureName" line) out.featureName
    timestamp := jsOr (matchKeyValue "Timestamp" line) out.timestamp
    summary := jsOr (matchKeyValue "Summary" line) out.summary
    specPath := jsOr (matchKeyValue "SpecPath" line) out.specPath
    reason := jsOr (matchKeyValue "Reason" line) out.reason }

/-- Models `text.split(/\r?\n/g)`: split at newlines.  A fragment may keep a
trailing CR, which the per-line `trim` removes, as in the source. -/
def statusLines (text : String) : List (List Char) := splitChar '\n' (chars text)

/-- Models `parseStatusFile` (extension.ts 1523–1557). -/
def parseStatusFile (text : String) : StatusFileMarkers :=
  (statusLines text).foldl parseLine {}

/-! ## Path helpers (filename-derived identifiers, extension.ts 1486–1502, 812–816) -/

/-- Models `path.basename`: the component after the last separator. -/
def basename (p : String) : String :=
  ofChars ((splitChar '/' (chars p)).getLastD [])

/-- Filename match `/^(\d+)\.status\.md$/i`: one-or-more digits followed by
the literal suffix `.status.md` (case-insensitive); yields the digit group. -/
def matchStatusBasename (base : String) : Option String :=
  let l := chars base
  let suff := chars ".status.md"
  let n := l.length - suff.length
  let stem := l.take n
  if (lowerChars (l.drop n) == suff) && !stem.isEmpty && stem.all Char.isDigit then
    some (ofChars stem)
  else none

/-- Match `/^(.*)SUFFIX$/i` on a basename: strip a fixed suffix
(case-insensitively) and return the (possibly empty) stem. -/
def stripSuffixCI (suff base : String) : Option String :=
  let l := chars base
  let s := chars suff
  if l.length < s.length then none
  else
    let n := l.length - s.length
    if lowerChars (l.drop n) == lowerChars s then some (ofChars (l.take n)) else none

/-- Models `inferFeatureNameFromProgressPath` (extension.ts 1486–1490). -/
def inferFeatureNameFromProgressPath (p : String) : Option String :=
  stripSuffixCI "-progress.md" (basename p)

/-- Models `inferFeatureNameFromSpecPath` (extension.ts 1492–1496). -/
def inferFeatureNameFromSpecPath (p : String) : Option String :=
  stripSuffixCI ".spec.ts" (basename p)

/-- Models `inferFeatureNameFromRequirementsPath` (extension.ts 1498–1502). -/
def inferFeatureNameFromRequirementsPath (p : String) : Option String :=
  stripSuffixCI "-requirements.md" (basename p)

/-! ## Data model (`Job`, panel state; extension.ts 5–45, 66–76) -/

/-- Models `JobStatus` from the source. -/
inductive JobStatus
  | Queued
  | Planning
  | Running
  | Done
  | Failed
  | Stopped
deriving DecidableEq, Repr

/-- The `Job` record (extension.ts 7–45). -/
structure Job where
  index : Nat
  indexLabel : String
  url : String
  shortUrl : String
  status : JobStatus
  runId : String
  promptPath : Option String := none
  customPrompt : Option String := none
  featureName : Option String := none
  progressFile : Option String := none
  specFile : Option String := none
  requirementsFile : Option String := none
  attemptsUsed : Nat
  maxLoops : Nat
  lastRun : Option AgentStatus := none
  finalStatus : Option AgentStatus := none
  reason : Option String := none
  startedAt : Option Nat := none
  mappedAt : Option Nat := none
  originalBranch : Option String := none
  worktreePath : Option String := none
  worktreeBranch : Option String := none
  stopped : Bool := false
  failureMessage : Option String := none
deriving DecidableEq, Repr

/-- The panel's mutable orchestration state (extension.ts 68–76). -/
structure PanelState where
  jobs : List Job
  runId : String
  running : Bool
  queue : List Nat
  featureToJob : List (String × Nat)
deriving DecidableEq, Repr

/-- Models `clampInt` (extension.ts 1419–1423) restricted to natural inputs: every
call site clamps into a positive range, so a negative JS input behaves
exactly like `0` here (both clamp to the minimum). -/
def clampNat (n lo hi : Nat) : Nat := Nat.max lo (Nat.min hi n)

/-- Models `getConfig().maxLoopsPerUrl` (extension.ts 138): the raw configuration
value clamped to `1..20`. -/
def getConfigMaxLoopsPerUrl (raw : Nat) : Nat := clampNat raw 1 20

/-! ## List-of-jobs helpers (JS array index assignment and `findIndex`) -/

/-- JS `arr[i] = x` (no-op when the index is out of range, which the source
never does). -/
def setAt : List Job → Nat → Job → List Job
  | [], _, _ => []
  | _ :: rest, 0, x => x :: rest
  | j :: rest, n + 1, x => j :: setAt rest n x

/-- JS `Array.prototype.findIndex`, bundled with the found element
(the source immediately reads `this.jobs[jobIdx]` after a successful find). -/
def jsFindIndexJob (p : Job → Bool) : List Job → Option (Nat × Job)
  | [] => none
  | j :: rest =>
    if p j then some (0, j)
    else (jsFindIndexJob p rest).map (fun q => (q.1 + 1, q.2))

/-- JS `Map.prototype.get` on the `featureToJob` map (insertion-ordered
association list; `set` is only ever called for keys not yet present). -/
def mapLookup : List (String × Nat) → String → Option Nat
  | [], _ => none
  | (k, v) :: rest, key => if k = key then some v else mapLookup rest key

/-! ## Status handlers (extension.ts 801–844, 864–893) -/

/-- The common job update both status handlers perform once the mandatory
marker parsed (extension.ts 829–841 and 878–888 are identical): status
becomes `Done` on PASS and `Failed` on FAIL, and the optional fields fall
back to the job's current values via JS `||`. -/
def applyStatusMarkers (job : Job) (m : StatusFileMarkers) (ast : AgentStatus) : Job :=
  { job with
    status := if ast = .PASS then .Done else .Failed
    finalStatus := some ast
    featureName := jsOr m.featureName job.featureName
    reason := jsOr m.reason (jsOr m.summary job.reason)
    specFile := jsOr m.specPath job.specFile }

/-- The `findIndex` predicate of `onStatusFileEvent` (extension.ts 820). -/
def statusJobPred (itemLabel runId : String) (j : Job) : Bool :=
  (j.indexLabel == itemLabel) && (j.runId == runId)

/-- Models `onStatusFileEvent` (extension.ts 801–844).  The file content is passed
in (a read failure in the source returns early, i.e. never reaches here). -/
def onStatusFileEvent (st : PanelState) (statusPath content : String) : PanelState :=
  match matchStatusBasename (basename statusPath) with
  | none => st
  | some itemLabel =>
    match jsFindIndexJob (statusJobPred itemLabel st.runId) st.jobs with
    | none => st
    | some (jobIdx, job) =>
      match (parseStatusFile content).agentStatus with
      | none => st
      | some ast =>
        { st with jobs := setAt st.jobs jobIdx (applyStatusMarkers job (parseStatusFile content) ast) }

/-- The job-record effect of `pollStatusFile` (extension.ts 864–893):
return unchanged when the job has no run id, the file is absent (read threw),
or the mandatory marker is missing; otherwise apply the common update. -/
def pollJobUpdate (job : Job) (fileContent : Option String) : Job :=
  if job.runId = "" then job
  else
    match fileContent with
    | none => job
    | some content =>
      match (parseStatusFile content).agentStatus with
      | none => job
      | some ast => applyStatusMarkers job (parseStatusFile content) ast

/-- Models `pollStatusFile` at state level (extension.ts 864–893); writing back an
unchanged job record is the same state as returning early. -/
def pollStatusFile (st : PanelState) (jobIdx : Nat) (fileContent : Option String) : PanelState :=
  match st.jobs.get? jobIdx with
  | none => st
  | some job => { st with jobs := setAt st.jobs jobIdx (pollJobUpdate job fileContent) }

/-! ## Cancellation and maxLoops messages (extension.ts 262–284, 312–334) -/

/-- Models `onMessage` case `cancelJob` (extension.ts 262–284); the best-effort chat
cancellation is an external side effect with no state change. -/
def cancelJob (st : PanelState) (idx : Nat) : PanelState :=
  match st.jobs.get? idx with
  | none => st
  | some job =>
    if job.status = .Running ∨ job.status = .Planning then
      let cancelled : Job :=
        { job with
          status := .Failed
          stopped := true
          failureMessage := some "Manually cancelled by user."
          finalStatus := some .FAIL }
      { st with jobs := setAt st.jobs idx cancelled }
    else st

/-- Models `onMessage` case `setMaxLoops` (extension.ts 312–323); the value is
clamped to `1..20`. -/
def setMaxLoops (st : PanelState) (idx value : Nat) : PanelState :=
  match st.jobs.get? idx with
  | none => st
  | some job =>
    { st with jobs := setAt st.jobs idx { job with maxLoops := clampNat value 1 20 } }

/-- Models `onMessage` case `setAllMaxLoops` (extension.ts 325–334). -/
def setAllMaxLoops (st : PanelState) (value : Nat) : PanelState :=
  { st with jobs := st.jobs.map (fun j => { j with maxLoops := clampNat value 1 20 }) }

/-! ## Progress-artifact correlation (extension.ts 727–770) -/

/-- The skip conditions of the loop body in
`mapFeatureToMostRecentUnmappedRunningJob` (extension.ts 754–762), as a
qualification predicate: unmapped, belongs to the active run, currently
`Running` or `Planning`, started, and started no longer than the window ago. -/
def qualifiesForMapping (runId : String) (windowMs now : Nat) (j : Job) : Bool :=
  j.featureName.isNone && (j.runId == runId) &&
    (j.status == JobStatus.Running || j.status == JobStatus.Planning) &&
    (match j.startedAt with
     | none => false
     | some s => decide (now - s ≤ windowMs))

/-- One loop-body update of the best candidate (extension.ts 754–767): when
the job qualifies and has a start time strictly greater than the best start
seen so far (initial `bestStart = -1` is modelled by `none`, which any start
time beats), it becomes the new best. -/
def stepBest (i : Nat) (q : Bool) (sOpt : Option Nat) (best : Option (Nat × Nat)) :
    Option (Nat × Nat) :=
  if q then
    match sOpt with
    | none => best
    | some s =>
      match best with
      | none => some (i, s)
      | some (bi, bs) => if bs < s then some (i, s) else some (bi, bs)
  else best

/-- The scan of `mapFeatureToMostRecentUnmappedRunningJob` (extension.ts
747–770): walk the jobs from index `i`, keeping the qualifying job with the
strictly greatest `startedAt` seen so far (`bestIdx`, `bestStart`). -/
def mapFeatureGo (runId : String) (windowMs now : Nat) :
    Nat → List Job → Option (Nat × Nat) → Option (Nat × Nat)
  | _, [], best => best
  | i, j :: rest, best =>
    mapFeatureGo runId windowMs now (i + 1) rest
      (stepBest i (qualifiesForMapping runId windowMs now j) j.startedAt best)

/-- Models `mapFeatureToMostRecentUnmappedRunningJob` (extension.ts 747–770). -/
def mapFeatureToMostRecentUnmappedRunningJob
    (jobs : List Job) (runId : String) (windowMs now : Nat) : Option Nat :=
  (mapFeatureGo runId windowMs now 0 jobs none).map Prod.fst

/-- The job update applied when a feature is first mapped (extension.ts 738). -/
def mappedJobUpdate (j : Job) (f p : String) (now : Nat) : Job :=
  { j with featureName := some f, progressFile := some p, mappedAt := some now }

/-- Models `refreshFromProgressFile` (extension.ts 727–745): infer the feature name
from the filename (JS treats the empty capture as falsy and returns), and map
it to a job only when it is not yet in the feature map and a job qualifies. -/
def refreshFromProgressFile (st : PanelState) (windowMs now : Nat) (progressPath : String) :
    PanelState :=
  match inferFeatureNameFromProgressPath progressPath with
  | none => st
  | some f =>
    if f = "" then st
    else
      match mapLookup st.featureToJob f with
      | some _ => st
      | none =>
        match mapFeatureToMostRecentUnmappedRunningJob st.jobs st.runId windowMs now with
        | none => st
        | some i =>
          match st.jobs.get? i with
          | none => st
          | some j =>
            { st with
              featureToJob := st.featureToJob ++ [(f, i)]
              jobs := setAt st.jobs i (mappedJobUpdate j f progressPath now) }

/-! ## Job construction and `loadAndRun` (extension.ts 203–260, 363–381) -/

/-- Models `String(idx).padStart(3, '0')` (extension.ts 371). -/
def padStart3 (n : Nat) : String :=
  let l := chars (toString n)
  ofChars (List.replicate (3 - l.length) '0' ++ l)

/-- Models `shortenUrl` with `max = 70` (extension.ts 1459–1462); the slice lengths
41 and 24 are `Math.floor(70*0.6)` and `Math.floor(70*0.35)` under IEEE
doubles. -/
def shortenUrl (u : String) : String :=
  let l := chars u
  if l.length ≤ 70 then u
  else ofChars (l.take 41 ++ ['…'] ++ l.drop (l.length - 24))

/-- Models `buildJobs` (extension.ts 363–381).  `globalMaxLoops ?? maxLoopsPerUrl`
is nullish coalescing: a supplied value — even `0` — is used as-is, with no
clamping.  `cfgMaxLoopsPerUrl` is the already-clamped configuration value. -/
def buildJobs (pairs : List (String × String)) (globalMaxLoops : Option Nat)
    (cfgMaxLoopsPerUrl : Nat) : List Job :=
  let loops := globalMaxLoops.getD cfgMaxLoopsPerUrl
  pairs.enum.map (fun p =>
    { index := p.1 + 1
      indexLabel := padStart3 (p.1 + 1)
      url := p.2.1
      shortUrl := shortenUrl p.2.1
      customPrompt := if p.2.2 = "" then none else some p.2.2
      status := JobStatus.Queued
      runId := ""
      maxLoops := loops
      attemptsUsed := 0 })

/-- Deduplicate (url, prompt) pairs by url, keeping the first occurrence
(extension.ts 216–223). -/
def dedupeByUrl : List String → List (String × String) → List (String × String)
  | _, [] => []
  | seen, (u, p) :: rest =>
    if seen.contains u then dedupeByUrl seen rest
    else (u, p) :: dedupeByUrl (u :: seen) rest

/-- Models `onMessage` case `loadAndRun` (extension.ts 203–260).  `validUrl` stands
for `looksLikeUrl`, whose WHATWG URL parsing lives in the host; `newRunId`
stands for the generated `makeRunId()` value.  The run start itself
(`ensureStatusDir`, `pumpQueue`) is I/O outside the state. -/
def loadAndRun (st : PanelState) (validUrl : String → Bool)
    (rawPairs : List (String × String)) (globalMaxLoops : Option Nat)
    (cfgMaxLoopsPerUrl : Nat) (newRunId : String) : PanelState :=
  if st.running then st
  else
    let pairs := (rawPairs.map
        (fun q => (ofChars (trimChars (chars q.1)), ofChars (trimChars (chars q.2))))).filter
      (fun q => (q.1 != "") && validUrl q.1)
    let deduped := dedupeByUrl [] pairs
    let jobs := buildJobs deduped globalMaxLoops cfgMaxLoopsPerUrl
    if jobs.isEmpty then st
    else
      { jobs := jobs.map (fun j =>
          { j with
            runId := newRunId
            maxLoops := if j.maxLoops = 0 then cfgMaxLoopsPerUrl else j.maxLoops
            attemptsUsed := 0
            status := JobStatus.Queued
            stopped := false
            failureMessage := none
            featureName := none
            progressFile := none
            specFile := none
            requirementsFile := none
            finalStatus := none
            lastRun := none
            reason := none
            startedAt := none
            mappedAt := none
            promptPath := none })
        runId := newRunId
        running := true
        queue := List.range jobs.length
        featureToJob := [] }

/-! ## Prompt Composer (`writePromptFile`, extension.ts 516–603) -/

/-- The built-in default prompt (extension.ts 52). -/
def DEFAULT_PROMPT : String :=
  "Please create a test plan and test for all possible configurations, platforms, and tabs. Make sure you test all crud operations."

/-- Match `\r?\n` at the head of the character list. -/
def matchOptCrLf : List Char → Option (List Char)
  | '\r' :: '\n' :: rest => some rest
  | '\n' :: rest => some rest
  | _ => none

/-- Match `\r?\n---\r?\n` at the head of the character list. -/
def matchFmClose (l : List Char) : Option (List Char) :=
  match matchOptCrLf l with
  | none => none
  | some l₁ =>
    match l₁ with
    | '-' :: '-' :: '-' :: l₂ => matchOptCrLf l₂
    | _ => none

/-- The lazy `[\s\S]*?` scan: find the earliest position where the front
matter's closing delimiter matches, and return what follows it. -/
def scanFmClose : List Char → Option (List Char)
  | [] => none
  | x :: xs =>
    match matchFmClose (x :: xs) with
    | some rest => some rest
    | none => scanFmClose xs

/-- Models `stripFrontMatter` (extension.ts 1478–1484): remove a leading
`--- ... ---` YAML block matched by `/^---\r?\n[\s\S]*?\r?\n---\r?\n/`. -/
def stripFrontMatter (text : String) : String :=
  match chars text with
  | '-' :: '-' :: '-' :: rest =>
    (match matchOptCrLf rest with
     | none => text
     | some body =>
       match scanFmClose body with
       | none => text
       | some after => ofChars after)
  | _ => text

/-- JS `String.prototype.replaceAll` with a non-empty literal pattern:
non-overlapping left-to-right replacement.  The fuel (`hay.length`) bounds
the recursion; each step consumes at least one character. -/
def replaceAllGo (pat rep : List Char) : Nat → List Char → List Char
  | 0, l => l
  | fuel + 1, l =>
    match l with
    | [] => []
    | c :: rest =>
      if pat.isPrefixOf (c :: rest) then
        rep ++ replaceAllGo pat rep fuel ((c :: rest).drop pat.length)
      else c :: replaceAllGo pat rep fuel rest

/-- JS `replaceAll` on strings. -/
def replaceAll (s pat rep : String) : String :=
  ofChars (replaceAllGo (chars pat) (chars rep) (chars s).length (chars s))

/-- Models `injectTemplate` (extension.ts 1467–1473): replace every
`\x7b\x7bKEY\x7d\x7d` token, in the entries' insertion order. -/
def injectTemplate (template : String) (vars : List (String × String)) : String :=
  vars.foldl (fun acc kv => replaceAll acc ("\x7b\x7b" ++ kv.1 ++ "\x7d\x7d") kv.2) template

/-- The worktree block of the prompt header (extension.ts 537–548); JS `||`
falls back to `"unknown"` for absent or empty branch names. -/
def worktreeBlock (job : Job) : String :=
  match job.worktreePath with
  | none => ""
  | some wp =>
    "WorktreePath: " ++ wp ++ "\n" ++
    "WorktreeBranch: " ++ jsOrStr job.worktreeBranch "unknown" ++ "\n" ++
    "OriginalBranch: " ++ jsOrStr job.originalBranch "unknown" ++ "\n\n" ++
    "**IMPORTANT — Git is managed by the extension. Do NOT run any git commands.**\n" ++
    "All new files MUST be written under the WorktreePath above using absolute paths.\n" ++
    "Do NOT run: git checkout, git branch, git switch, git worktree, git commit, git push, or az repos pr create.\n\n"

/-- The prompt header template literal (extension.ts 550–560). -/
def promptHeader (runId : String) (job : Job) (attempt : Nat) : String :=
  "---\nmode: agent\n---\n\n" ++
  "RunId: " ++ runId ++ "\n" ++
  "Item: " ++ job.indexLabel ++ "\n" ++
  "URL: " ++ job.url ++ "\n" ++
  "Attempt: " ++ toString attempt ++ "\n" ++
  "MaxLoopsPerUrl: " ++ toString job.maxLoops ++ "\n" ++
  worktreeBlock job ++ "\n"

/-- JS `Array.prototype.join('\n')`. -/
def joinLines : List String → String
  | [] => ""
  | [x] => x
  | x :: rest => x ++ "\n" ++ joinLines rest

/-- The retry-context block (extension.ts 573–597): appended only for
attempt > 1; each optional job field contributes a line only when present
(JS truthiness — the source never stores empty strings in these fields). -/
def retryContext (job : Job) (attempt : Nat) : String :=
  if attempt ≤ 1 then ""
  else
    let parts : List String :=
      ["", "---",
       "## Previous Attempt Context (attempt " ++ toString (attempt - 1) ++ " of "
         ++ toString job.maxLoops ++ ")", ""]
      ++ (match job.failureMessage with
          | some m => ["**Failure reason**: " ++ m]
          | none => [])
      ++ (match job.reason with
          | some r => ["**Status reason**: " ++ r]
          | none => [])
      ++ (match job.progressFile with
          | some p => ["**Progress file** (may contain useful locators/context): " ++ p]
          | none => [])
      ++ (match job.specFile with
          | some s => ["**Existing spec file** (check before regenerating): " ++ s]
          | none => [])
      ++ (match job.requirementsFile with
          | some q => ["**Requirements file**: " ++ q]
          | none => [])
      ++ ["",
          "Review the artifacts above before starting from scratch. Fix the failing spec if it exists rather than regenerating.",
          ""]
    joinLines parts

/-- The full text `writePromptFile` composes and persists
(extension.ts 516–603): header, injected body (custom prompt with its front
matter stripped, or the built-in default), then the retry context. -/
def promptText (runId : String) (job : Job) (attempt : Nat) : String :=
  let strippedTemplate :=
    match job.customPrompt with
    | some cp => stripFrontMatter cp
    | none => DEFAULT_PROMPT
  let injectedBody := injectTemplate strippedTemplate
    [("URL", job.url), ("RunId", runId), ("Item", job.indexLabel),
     ("Attempt", toString attempt), ("MaxLoopsPerUrl", toString job.maxLoops)]
  promptHeader runId job attempt ++ injectedBody ++ retryContext job attempt

/-! ## The wait loop (`waitForTerminalStatus`, extension.ts 681–721) -/

/-- Is a status terminal (the check at extension.ts 692)? -/
def terminalStatus : JobStatus → Bool
  | .Done => true
  | .Failed => true
  | .Stopped => true
  | _ => false

/-- The synthesized timeout failure message (extension.ts 700);
`Math.round(ms / 1000)` for a non-negative value is `(ms + 500) / 1000`. -/
def timeoutMessage (timeoutMs : Nat) : String :=
  "Timed out after " ++ toString ((timeoutMs + 500) / 1000) ++ "s waiting for agent status file."

/-- The job update the timeout branch performs (extension.ts 697–702). -/
def timeoutFailUpdate (timeoutMs : Nat) (j : Job) : Job :=
  { j with
    status := JobStatus.Failed
    failureMessage := some (timeoutMessage timeoutMs)
    finalStatus := some AgentStatus.FAIL }

/-- What one iteration of the wait loop reads from the outside world: the
panel's `running` flag, `Date.now()`, and the status file's content (`none`
when reading throws because the file does not exist yet). -/
structure WaitTick where
  running : Bool
  now : Nat
  fileContent : Option String
deriving DecidableEq, Repr

/-- Models `waitForTerminalStatus` (extension.ts 681–721) over a finite list of
ticks (the `delay(2000)` suspensions bound how many iterations a real wait
performs).  Returns the job's final record and the loop's returned status
(`none` when the supplied ticks run out with the loop still going).  The
branch guard (extension.ts 716) only touches git state, not the job. -/
def waitForTerminalStatus (timeoutMs waitStart : Nat) :
    Job → List WaitTick → Job × Option JobStatus
  | job, [] => (job, none)
  | job, t :: rest =>
    if t.running = false then (job, some JobStatus.Stopped)
    else if terminalStatus job.status then (job, some job.status)
    else if 0 < timeoutMs ∧ timeoutMs < t.now - waitStart then
      (timeoutFailUpdate timeoutMs job, some JobStatus.Failed)
    else
      let job' := pollJobUpdate job t.fileContent
      if job'.status = JobStatus.Done ∨ job'.status = JobStatus.Failed then (job', some job'.status)
      else waitForTerminalStatus timeoutMs waitStart job' rest

/-- What `runJob` decides after the wait returns (extension.ts 437–456):
publish and stop on `Done`; requeue with the retry failure message on
`Failed` while attempts remain; otherwise leave state as-is and exit. -/
inductive AttemptDecision
  | publishAndDone
  | retryAttempt (failureMessage : String)
  | exitLoop
deriving DecidableEq, Repr

/-- The post-wait branch of `runJob` (extension.ts 437–456). -/
def afterWait (terminal : JobStatus) (attempt maxAttempts : Nat) : AttemptDecision :=
  if terminal = JobStatus.Done then .publishAndDone
  else if terminal = JobStatus.Failed ∧ attempt < maxAttempts then
    .retryAttempt ("Attempt " ++ toString attempt ++ " failed, retrying...")
  else .exitLoop

/-! ## The attempt loop's job mutations as events (extension.ts 397–488)

`runJob` captures `maxAttempts = job.maxLoops` once at entry (extension.ts
404) and then mutates `this.jobs[jobIdx]` at a handful of sites, interleaved
with `await` suspension points at which message handlers (`setMaxLoops`,
`cancelJob`) and watcher handlers can also run.  Each mutation is one event;
a run of the job is a list of events folded over the job record. -/

inductive JobEvent
  /-- The per-attempt reset at extension.ts 417–425. -/
  | attemptStart (attempt now : Nat)
  /-- Recording the prompt path at extension.ts 429. -/
  | promptWritten (promptPath : String)
  /-- A status artifact delivered by watcher or poll (extension.ts 829–841,
  878–888). -/
  | statusArrived (content : String)
  /-- The progress-mapping update at extension.ts 738. -/
  | mapped (featureName progressPath : String) (now : Nat)
  /-- The retry requeue at extension.ts 444–450. -/
  | retryRequeue (attempt : Nat)
  /-- The exception requeue at extension.ts 460–467. -/
  | errorRequeue (attempt : Nat) (msg : String)
  /-- The final-attempt failure at extension.ts 472–479. -/
  | finalFail (attempt : Nat) (msg : String)
  /-- The wait-loop timeout at extension.ts 696–702. -/
  | timeoutFired (timeoutMs : Nat)
  /-- The `cancelJob` message (extension.ts 262–284). -/
  | cancel
  /-- The `setMaxLoops` / `setAllMaxLoops` messages (extension.ts 312–334). -/
  | setMax (value : Nat)
deriving DecidableEq, Repr

/-- Apply one event's mutation to the job record, each translated from its
source site. -/
def applyEvent (j : Job) : JobEvent → Job
  | .attemptStart n now =>
    { j with
      status := if n = 1 then JobStatus.Planning else JobStatus.Running
      startedAt := some now
      attemptsUsed := n
      finalStatus := none
      failureMessage := none }
  | .promptWritten p => { j with promptPath := some p, status := JobStatus.Running }
  | .statusArrived content =>
    match (parseStatusFile content).agentStatus with
    | none => j
    | some ast => applyStatusMarkers j (parseStatusFile content) ast
  | .mapped f p now =>
    { j with featureName := some f, progressFile := some p, mappedAt := some now }
  | .retryRequeue n =>
    { j with
      status := JobStatus.Queued
      failureMessage := some ("Attempt " ++ toString n ++ " failed, retrying...") }
  | .errorRequeue n msg =>
    { j with
      status := JobStatus.Queued
      attemptsUsed := n
      failureMessage := some ("Attempt " ++ toString n ++ " error: " ++ msg ++ ". Retrying...") }
  | .finalFail n msg =>
    { j with
      status := JobStatus.Failed
      failureMessage := some msg
      finalStatus := some AgentStatus.FAIL
      attemptsUsed := n }
  | .timeoutFired timeoutMs => timeoutFailUpdate timeoutMs j
  | .cancel =>
    if j.status = JobStatus.Running ∨ j.status = JobStatus.Planning then
      { j with
        status := JobStatus.Failed
        stopped := true
        failureMessage := some "Manually cancelled by user."
        finalStatus := some AgentStatus.FAIL }
    else j
  | .setMax v => { j with maxLoops := clampNat v 1 20 }

/-- Fold a list of events over a job record. -/
def runTrace (j : Job) (tr : List JobEvent) : Job := tr.foldl applyEvent j

/-- The attempt-counter discipline the `for` loop of `runJob` enforces with
respect to the captured `maxAttempts` bound: every attempt number an event
carries came from the loop variable, so it never exceeds the captured bound. -/
def eventAttemptBoundB (capturedMax : Nat) : JobEvent → Bool
  | .attemptStart n _ => decide (n ≤ capturedMax)
  | .retryRequeue n => decide (n ≤ capturedMax)
  | .errorRequeue n _ => decide (n ≤ capturedMax)
  | .finalFail n _ => decide (n ≤ capturedMax)
  | _ => true

/-- All events of the trace respect the captured attempt bound. -/
def legalTraceB (capturedMax : Nat) (tr : List JobEvent) : Bool :=
  tr.all (eventAttemptBoundB capturedMax)

/-- Is the event a `setMaxLoops`/`setAllMaxLoops` update? -/
def isSetMax : JobEvent → Bool
  | .setMax _ => true
  | _ => false

/-- The trace contains no `setMaxLoops`/`setAllMaxLoops` update. -/
def noSetMaxB (tr : List JobEvent) : Bool := tr.all (fun e => !isSetMax e)

/-! ## Reference functions for the codec claims -/

/-- The value of the last line (in order) on which the matcher fires, if any:
the "last matching line wins" reading of the overwrite loop. -/
def lastMatch {α : Type} (f : List Char → Option α) : List (List Char) → Option α
  | [] => none
  | l :: rest => jsOr (lastMatch f rest) (f l)

/-- Modelled from the claim's words (C3): the artifact's first line, trimmed,
is the literal marker `STATUS: PASS` or `STATUS: FAIL` — exact keyword
`STATUS`, case-insensitive, tolerant of surrounding whitespace. -/
def claimFirstLineStatusMarker (text : String) : Bool :=
  match statusLines text with
  | [] => false
  | l :: _ =>
    let u := upperChars (trimChars l)
    (chars "STATUS:").isPrefixOf u &&
      (let rest := trimChars (u.drop 7)
       (rest == chars "PASS") || (rest == chars "FAIL"))

/-! ## Concrete instances used by the claim theorems and witnesses -/

/-- A `Running` job of the active run `r1`. -/
def c1Job : Job :=
  { index := 1
    indexLabel := "001"
    url := "https://portal.example/blade"
    shortUrl := "https://portal.example/blade"
    status := JobStatus.Running
    runId := "r1"
    attemptsUsed := 1
    maxLoops := 3
    startedAt := some 100 }

/-- The panel state while `c1Job` is running. -/
def c1State : PanelState :=
  { jobs := [c1Job], runId := "r1", running := true, queue := [], featureToJob := [] }

/-- The state right after the `cancelJob` command. -/
def c1Cancelled : PanelState := cancelJob c1State 0

/-- The cancelled state after a late, well-formed PASS status artifact for
this job is delivered to the watcher handler. -/
def c1AfterLatePass : PanelState :=
  onStatusFileEvent c1Cancelled ".agent-loop-runner/status/r1/001.status.md" "AGENT_STATUS: PASS"

/-- A fresh job with `maxLoops = 3` and no custom prompt. -/
def c2Job0 : Job :=
  { index := 1
    indexLabel := "001"
    url := "https://portal.example/widgets"
    shortUrl := "https://portal.example/widgets"
    status := JobStatus.Queued
    runId := "r1"
    attemptsUsed := 0
    maxLoops := 3 }

/-- The mutation sequence of a first attempt that fails via a FAIL status
artifact (with a `Reason` and a mapped progress artifact), is requeued with
the retry failure message, and then begins attempt 2 — whose per-attempt
reset (extension.ts 417–425) clears `failureMessage` before
`writePromptFile` runs. -/
def c2Trace : List JobEvent :=
  [JobEvent.attemptStart 1 100,
   JobEvent.promptWritten ".agent-loop-runner/prompts/r1/001.prompt.md",
   JobEvent.mapped "Widgets" "tmp/progress-tracking/Widgets-progress.md" 150,
   JobEvent.statusArrived "AGENT_STATUS: FAIL\nReason: Login failed",
   JobEvent.retryRequeue 1,
   JobEvent.attemptStart 2 5000]

/-- The job record at the moment attempt 2's prompt is composed. -/
def c2JobAtAttempt2 : Job := runTrace c2Job0 c2Trace

/-- The prompt text composed for attempt 2. -/
def c2Prompt : String := promptText "r1" c2JobAtAttempt2 2

/-- A fresh job with `maxLoops = 3` for the C4 counterexample. -/
def c4Job0 : Job :=
  { index := 1
    indexLabel := "001"
    url := "https://portal.example/a"
    shortUrl := "https://portal.example/a"
    status := JobStatus.Queued
    runId := "r1"
    attemptsUsed := 0
    maxLoops := 3 }

/-- Attempt 1 fails, the job is requeued, attempt 2 starts, and then a
`setMaxLoops` message lowers `maxLoops` to 1 while the job is processed. -/
def c4Trace : List JobEvent :=
  [JobEvent.attemptStart 1 10,
   JobEvent.statusArrived "AGENT_STATUS: FAIL\nReason: boom",
   JobEvent.retryRequeue 1,
   JobEvent.attemptStart 2 3000,
   JobEvent.setMax 1]

/-- The single job `buildJobs` produces for the witness input. -/
def c5BuiltJob : Job :=
  { index := 1
    indexLabel := "001"
    url := "https://a"
    shortUrl := "https://a"
    status := JobStatus.Queued
    runId := ""
    maxLoops := 5
    attemptsUsed := 0 }

/-- The idle panel state before the C5 counterexample run. -/
def c5State0 : PanelState :=
  { jobs := [], runId := "", running := false, queue := [], featureToJob := [] }

/-- The state after a `loadAndRun` message supplying `globalMaxLoops = 21`. -/
def c5Loaded : PanelState :=
  loadAndRun c5State0 (fun _ => true) [("https://a", "")] (some 21)
    (getConfigMaxLoopsPerUrl 3) "r1"

/-- A `Running` job of run `r6` for the C6 witness. -/
def c6State : PanelState :=
  { jobs := [{ index := 1, indexLabel := "001", url := "https://b", shortUrl := "https://b",
               status := JobStatus.Running, runId := "r6", attemptsUsed := 1, maxLoops := 3,
               startedAt := some 10 }]
    runId := "r6"
    running := true
    queue := []
    featureToJob := [] }

/-- The waiting `Running` job for the C9 witness. -/
def c9Job : Job :=
  { index := 1
    indexLabel := "001"
    url := "https://portal.example/blade"
    shortUrl := "https://portal.example/blade"
    status := JobStatus.Running
    runId := "r9"
    attemptsUsed := 1
    maxLoops := 2
    startedAt := some 0 }

/-- A single poll iteration at 1500 ms with no status file present. -/
def c9Ticks : List WaitTick := [{ running := true, now := 1500, fileContent := none }]

/-- A run with one finished job and two live unmapped jobs (started at 100
and 200 ms) for the C8 witness. -/
def c8State : PanelState :=
  { jobs :=
      [{ index := 1, indexLabel := "001", url := "https://a", shortUrl := "https://a",
         status := JobStatus.Done, runId := "r8", attemptsUsed := 1, maxLoops := 3,
         startedAt := some 50 },
       { index := 2, indexLabel := "002", url := "https://b", shortUrl := "https://b",
         status := JobStatus.Running, runId := "r8", attemptsUsed := 1, maxLoops := 3,
         startedAt := some 100 },
       { index := 3, indexLabel := "003", url := "https://c", shortUrl := "https://c",
         status := JobStatus.Planning, runId := "r8", attemptsUsed := 1, maxLoops := 3,
         startedAt := some 200 }]
    runId := "r8"
    running := true
    queue := []
    featureToJob := [] }

/-! # Theorems -/

/-! ## Helper lemmas about `jsOr` and the parse fold -/

theorem jsOr_none_right {α : Type} (a : Option α) : jsOr a none = a := by
  cases a <;> rfl

theorem jsOr_assoc {α : Type} (a b c : Option α) :
    jsOr (jsOr a b) c = jsOr a (jsOr b c) := by
  cases a <;> cases b <;> rfl

theorem jsOr_isSome {α : Type} (a b : Option α) :
    (jsOr a b).isSome = (a.isSome || b.isSome) := by
  cases a <;> cases b <;> rfl

/-- The fold of `parseStatusFile` computes, for any field whose per-line
update is "overwrite on match", the value of the last matching line. -/
theorem foldl_parseLine_proj {α : Type} (proj : StatusFileMarkers → Option α)
    (mtch : List Char → Option α)
    (hproj : ∀ out l, proj (parseLine out l) = jsOr (mtch l) (proj out)) :
    ∀ (ls : List (List Char)) (out : StatusFileMarkers),
      proj (ls.foldl parseLine out) = jsOr (lastMatch mtch ls) (proj out) := by
  intro ls
  induction ls with
  | nil => intro out; simp [lastMatch, jsOr]
  | cons l rest ih =>
    intro out
    simp only [List.foldl_cons, lastMatch]
    rw [ih, hproj, jsOr_assoc]

theorem parseStatusFile_agentStatus (text : String) :
    (parseStatusFile text).agentStatus = lastMatch matchAgentStatus (statusLines text) := by
  unfold parseStatusFile
  rw [foldl_parseLine_proj StatusFileMarkers.agentStatus matchAgentStatus
    (fun _ _ => rfl) (statusLines text) {}]
  exact jsOr_none_right _

theorem lastMatch_isSome_iff {α : Type} (f : List Char → Option α) (ls : List (List Char)) :
    (lastMatch f ls).isSome = true ↔ ∃ l ∈ ls, (f l).isSome = true := by
  induction ls with
  | nil => simp [lastMatch]
  | cons l rest ih =>
    simp only [lastMatch, jsOr_isSome, Bool.or_eq_true, ih, List.mem_cons]
    constructor
    · rintro (⟨x, hx, hfx⟩ | hfl)
      · exact ⟨x, Or.inr hx, hfx⟩
      · exact ⟨l, Or.inl rfl, hfl⟩
    · rintro ⟨x, (rfl | hx), hfx⟩
      · exact Or.inr hfx
      · exact Or.inl ⟨x, hx, hfx⟩

/-! ## C10 -/

/-- C10: `parseStatusFile` is total on arbitrary text (it is a Lean function
`String → StatusFileMarkers`), and each field is bound to the value of the
last line matching that field's pattern; in particular an artifact with
`AGENT_STATUS: PASS` followed later by `AGENT_STATUS: FAIL` parses with
`agentStatus = FAIL`. -/
theorem C10_parse_last_match_wins :
    (∀ text : String,
      (parseStatusFile text).agentStatus = lastMatch matchAgentStatus (statusLines text)
      ∧ (parseStatusFile text).featureName = lastMatch (matchKeyValue "FeatureName") (statusLines text)
      ∧ (parseStatusFile text).timestamp = lastMatch (matchKeyValue "Timestamp") (statusLines text)
      ∧ (parseStatusFile text).summary = lastMatch (matchKeyValue "Summary") (statusLines text)
      ∧ (parseStatusFile text).specPath = lastMatch (matchKeyValue "SpecPath") (statusLines text)
      ∧ (parseStatusFile text).reason = lastMatch (matchKeyValue "Reason") (statusLines text))
    ∧ (parseStatusFile "AGENT_STATUS: PASS\nAGENT_STATUS: FAIL").agentStatus
        = some AgentStatus.FAIL := by
  constructor
  · intro text
    refine ⟨parseStatusFile_agentStatus text, ?_, ?_, ?_, ?_, ?_⟩
    · unfold parseStatusFile
      rw [foldl_parseLine_proj StatusFileMarkers.featureName (matchKeyValue "FeatureName")
        (fun _ _ => rfl) (statusLines text) {}]
      exact jsOr_none_right _
    · unfold parseStatusFile
      rw [foldl_parseLine_proj StatusFileMarkers.timestamp (matchKeyValue "Timestamp")
        (fun _ _ => rfl) (statusLines text) {}]
      exact jsOr_none_right _
    · unfold parseStatusFile
      rw [foldl_parseLine_proj StatusFileMarkers.summary (matchKeyValue "Summary")
        (fun _ _ => rfl) (statusLines text) {}]
      exact jsOr_none_right _
    · unfold parseStatusFile
      rw [foldl_parseLine_proj StatusFileMarkers.specPath (matchKeyValue "SpecPath")
        (fun _ _ => rfl) (statusLines text) {}]
      exact jsOr_none_right _
    · unfold parseStatusFile
      rw [foldl_parseLine_proj StatusFileMarkers.reason (matchKeyValue "Reason")
        (fun _ _ => rfl) (statusLines text) {}]
      exact jsOr_none_right _
  · decide

/-! ## C3 -/

/-- C3 counterexample: the claim's "complete iff the first line is the
literal marker `STATUS: PASS|FAIL`" is false at the concrete artifact
`"AGENT_STATUS: PASS"`, which parses complete although its first line is not
the literal `STATUS: PASS` marker (the actual keyword is `AGENT_STATUS`). -/
theorem C3_counterexample :
    ¬ (((parseStatusFile "AGENT_STATUS: PASS").agentStatus.isSome = true)
        ↔ claimFirstLineStatusMarker "AGENT_STATUS: PASS" = true) := by
  decide

/-- C3 (amended): a status artifact parses as a complete record (marker
present) iff some line — not necessarily the first — trimmed, matches
`AGENT_STATUS: PASS` or `AGENT_STATUS: FAIL` (exact keyword `AGENT_STATUS`,
case-insensitive, whitespace-tolerant); otherwise it is treated as not yet
written. -/
theorem C3_marker_iff_some_line :
    ∀ text : String,
      (parseStatusFile text).agentStatus.isSome = true
        ↔ ∃ l ∈ statusLines text, (matchAgentStatus l).isSome = true := by
  intro text
  rw [parseStatusFile_agentStatus]
  exact lastMatch_isSome_iff matchAgentStatus (statusLines text)

/-- C3 amended-theorem witness at a concrete artifact. -/
theorem C3_marker_iff_some_line_witness :
    (parseStatusFile "Summary: s\nAGENT_STATUS: FAIL").agentStatus.isSome = true
      ↔ ∃ l ∈ statusLines "Summary: s\nAGENT_STATUS: FAIL", (matchAgentStatus l).isSome = true :=
  C3_marker_iff_some_line "Summary: s\nAGENT_STATUS: FAIL"

/-! ## C1 -/

/-- C1: the claim says a cancelled job (status `Failed`, `stopped = true`)
stays `Failed` for every later status artifact, even a well-formed PASS.
The code violates this: `onStatusFileEvent` never checks `stopped` or the
current status, so the late PASS artifact moves the cancelled job to `Done`.
This theorem evaluates the code at the failing input: after `cancelJob` the
job is `Failed` with `stopped = true`, and after the late PASS delivery its
status is `Done`, not `Failed`. -/
theorem C1_cancelled_job_moves_to_done :
    ((c1Cancelled.jobs.get? 0).map Job.status = some JobStatus.Failed)
    ∧ ((c1Cancelled.jobs.get? 0).map Job.stopped = some true)
    ∧ ((c1Cancelled.jobs.get? 0).map Job.finalStatus = some (some AgentStatus.FAIL))
    ∧ ((c1AfterLatePass.jobs.get? 0).map Job.status = some JobStatus.Done)
    ∧ ((c1AfterLatePass.jobs.get? 0).map Job.stopped = some true) := by
  decide

/-! ## C2 -/

/-- C2: the claim says the attempt-2 prompt contains the previous attempt's
failure message and the discovered artifact paths.  The code violates the
failure-message half: the per-attempt reset at the top of the attempt loop
sets `failureMessage` back to `undefined` before `writePromptFile` runs, so
the `**Failure reason**` line of the retry-context block (extension.ts
576–578) can never appear.  This theorem evaluates the code at the failing
input: at composition time the failure message is gone and the prompt
contains no trace of it, while the artifact path and the status reason are
present. -/
theorem C2_retry_prompt_lacks_failure_message :
    c2JobAtAttempt2.failureMessage = none
    ∧ c2JobAtAttempt2.reason = some "Login failed"
    ∧ strContains c2Prompt "**Failure reason**" = false
    ∧ strContains c2Prompt "Attempt 1 failed" = false
    ∧ strContains c2Prompt "tmp/progress-tracking/Widgets-progress.md" = true
    ∧ strContains c2Prompt "**Status reason**: Login failed" = true := by
  decide

/-! ## C4 -/

/-- Every single event other than a `setMax` preserves the invariant
"`attemptsUsed` is at most the captured bound and `maxLoops` equals it",
provided the event respects the attempt-counter discipline. -/
theorem applyEvent_attempt_invariant (cm : Nat) (j : Job) (e : JobEvent)
    (hb : eventAttemptBoundB cm e = true)
    (hs : isSetMax e = false)
    (h1 : j.attemptsUsed ≤ cm) (h2 : j.maxLoops = cm) :
    (applyEvent j e).attemptsUsed ≤ cm ∧ (applyEvent j e).maxLoops = cm := by
  cases e with
  | attemptStart n now =>
    simp [eventAttemptBoundB] at hb
    exact ⟨by simpa [applyEvent] using hb, by simpa [applyEvent] using h2⟩
  | promptWritten p => exact ⟨by simpa [applyEvent] using h1, by simpa [applyEvent] using h2⟩
  | statusArrived content =>
    simp only [applyEvent]
    cases (parseStatusFile content).agentStatus with
    | none => exact ⟨h1, h2⟩
    | some ast => exact ⟨by simpa [applyStatusMarkers] using h1, by simpa [applyStatusMarkers] using h2⟩
  | mapped f p now => exact ⟨by simpa [applyEvent] using h1, by simpa [applyEvent] using h2⟩
  | retryRequeue n => exact ⟨by simpa [applyEvent] using h1, by simpa [applyEvent] using h2⟩
  | errorRequeue n msg =>
    simp [eventAttemptBoundB] at hb
    exact ⟨by simpa [applyEvent] using hb, by simpa [applyEvent] using h2⟩
  | finalFail n msg =>
    simp [eventAttemptBoundB] at hb
    exact ⟨by simpa [applyEvent] using hb, by simpa [applyEvent] using h2⟩
  | timeoutFired t => exact ⟨by simpa [applyEvent, timeoutFailUpdate] using h1,
      by simpa [applyEvent, timeoutFailUpdate] using h2⟩
  | cancel =>
    simp only [applyEvent]
    by_cases hc : j.status = JobStatus.Running ∨ j.status = JobStatus.Planning
    · simp only [if_pos hc]
      exact ⟨h1, h2⟩
    · simp only [if_neg hc]
      exact ⟨h1, h2⟩
  | setMax v => simp [isSetMax] at hs

/-- Trace-level form of the step invariant: a legal, setMax-free trace keeps
`attemptsUsed` within the captured bound and `maxLoops` equal to it. -/
theorem runTrace_attempt_invariant (cm : Nat) :
    ∀ (tr : List JobEvent) (j : Job),
      j.attemptsUsed ≤ cm → j.maxLoops = cm →
      (∀ e ∈ tr, eventAttemptBoundB cm e = true) →
      (∀ e ∈ tr, isSetMax e = false) →
      (runTrace j tr).attemptsUsed ≤ cm ∧ (runTrace j tr).maxLoops = cm := by
  intro tr
  induction tr with
  | nil => intro j h1 h2 _ _; exact ⟨h1, h2⟩
  | cons e rest ih =>
    intro j h1 h2 hleg hnos
    have hstep := applyEvent_attempt_invariant cm j e
      (hleg e (List.mem_cons_self e rest)) (hnos e (List.mem_cons_self e rest)) h1 h2
    have := ih (applyEvent j e) hstep.1 hstep.2
      (fun x hx => hleg x (List.mem_cons_of_mem e hx))
      (fun x hx => hnos x (List.mem_cons_of_mem e hx))
    simpa [runTrace, List.foldl_cons] using this

/-- C4 (amended): `attemptsUsed` never exceeds the `maxLoops` value that
`runJob` captured when the job's processing started (`cm`), at every
observable point (after every event-trace position); hence as long as no
`setMaxLoops`/`setAllMaxLoops` message changes the job's `maxLoops` during
processing, `attemptsUsed ≤ maxLoops` holds at every observable point of the
run.  (The unamended claim fails: a `setMax` lowering `maxLoops` mid-run
breaks it — see the counterexample.) -/
theorem C4_attempts_bounded_without_setMax (job0 : Job) (cm : Nat) (t1 t2 : List JobEvent)
    (h1 : job0.attemptsUsed ≤ cm) (h2 : job0.maxLoops = cm)
    (hleg : legalTraceB cm (t1 ++ t2) = true)
    (hnosm : noSetMaxB (t1 ++ t2) = true) :
    (runTrace job0 t1).attemptsUsed ≤ (runTrace job0 t1).maxLoops := by
  have hleg1 : ∀ e ∈ t1, eventAttemptBoundB cm e = true := by
    intro e he
    exact List.all_eq_true.mp hleg e (List.mem_append_left t2 he)
  have hnos1 : ∀ e ∈ t1, isSetMax e = false := by
    intro e he
    have := List.all_eq_true.mp hnosm e (List.mem_append_left t2 he)
    simpa using this
  have h := runTrace_attempt_invariant cm t1 job0 h1 h2 hleg1 hnos1
  rw [h.2]
  exact h.1

/-- C4 amended-theorem witness: a concrete legal, setMax-free trace keeps
`attemptsUsed ≤ maxLoops`. -/
theorem C4_attempts_bounded_without_setMax_witness :
    c2Job0.attemptsUsed ≤ 3 ∧ c2Job0.maxLoops = 3
    ∧ legalTraceB 3 ([JobEvent.attemptStart 1 10, JobEvent.retryRequeue 1] ++ [JobEvent.attemptStart 2 20]) = true
    ∧ noSetMaxB ([JobEvent.attemptStart 1 10, JobEvent.retryRequeue 1] ++ [JobEvent.attemptStart 2 20]) = true
    ∧ (runTrace c2Job0 [JobEvent.attemptStart 1 10, JobEvent.retryRequeue 1]).attemptsUsed
        ≤ (runTrace c2Job0 [JobEvent.attemptStart 1 10, JobEvent.retryRequeue 1]).maxLoops :=
  ⟨by decide, by decide, by decide, by decide,
    C4_attempts_bounded_without_setMax c2Job0 3
      [JobEvent.attemptStart 1 10, JobEvent.retryRequeue 1] [JobEvent.attemptStart 2 20]
      (by decide) (by decide) (by decide) (by decide)⟩

/-- C4 counterexample: the claim as stated — `attemptsUsed ≤ maxLoops` at
every observable point, including after a mid-run `setMaxLoops` that lowers
`maxLoops` — is false: this legal trace (every attempt within the captured
bound 3, starting from a job with `attemptsUsed = 0 ≤ maxLoops = 3`) ends
with `attemptsUsed = 2` and `maxLoops = 1`. -/
theorem C4_counterexample :
    legalTraceB 3 c4Trace = true
    ∧ c4Job0.attemptsUsed ≤ c4Job0.maxLoops
    ∧ (runTrace c4Job0 c4Trace).attemptsUsed = 2
    ∧ (runTrace c4Job0 c4Trace).maxLoops = 1
    ∧ ¬ ((runTrace c4Job0 c4Trace).attemptsUsed ≤ (runTrace c4Job0 c4Trace).maxLoops) := by
  decide

/-! ## C5 -/

theorem clampNat_1_20_bounds (v : Nat) : 1 ≤ clampNat v 1 20 ∧ clampNat v 1 20 ≤ 20 := by
  unfold clampNat
  exact ⟨Nat.le_max_left 1 _, Nat.max_le.mpr ⟨by omega, Nat.min_le_left 20 v⟩⟩

/-- An element of `setAt l i x` is an element of `l` or is `x`. -/
theorem mem_setAt (l : List Job) (i : Nat) (x j : Job) (h : j ∈ setAt l i x) :
    j ∈ l ∨ j = x := by
  induction l generalizing i with
  | nil => simp [setAt] at h
  | cons a rest ih =>
    cases i with
    | zero =>
      simp only [setAt, List.mem_cons] at h
      rcases h with rfl | h
      · exact Or.inr rfl
      · exact Or.inl (List.mem_cons_of_mem a h)
    | succ n =>
      simp only [setAt, List.mem_cons] at h
      rcases h with rfl | h
      · exact Or.inl (List.mem_cons_self j rest)
      · rcases ih n h with h' | h'
        · exact Or.inl (List.mem_cons_of_mem a h')
        · exact Or.inr h'

/-- C5 (amended): `maxLoops ∈ [1, 20]` holds for the clamped configuration
default, for the clamped value stored by `setMaxLoops`/`setAllMaxLoops`, and
for jobs built by `loadAndRun` when the message supplies no `globalMaxLoops`
or one within bounds.  (The unamended claim fails: `loadAndRun` applies a
supplied `globalMaxLoops` without clamping — see the counterexample.) -/
theorem C5_maxLoops_bounds :
    (∀ raw, 1 ≤ getConfigMaxLoopsPerUrl raw ∧ getConfigMaxLoopsPerUrl raw ≤ 20)
    ∧ (∀ v, 1 ≤ clampNat v 1 20 ∧ clampNat v 1 20 ≤ 20)
    ∧ (∀ pairs g raw, (∀ v, g = some v → 1 ≤ v ∧ v ≤ 20) →
        ∀ j ∈ buildJobs pairs g (getConfigMaxLoopsPerUrl raw),
          1 ≤ j.maxLoops ∧ j.maxLoops ≤ 20)
    ∧ (∀ st validUrl rawPairs g raw rid, (∀ v, g = some v → 1 ≤ v ∧ v ≤ 20) →
        ∀ j ∈ (loadAndRun st validUrl rawPairs g (getConfigMaxLoopsPerUrl raw) rid).jobs,
          j ∈ st.jobs ∨ (1 ≤ j.maxLoops ∧ j.maxLoops ≤ 20))
    ∧ (∀ st idx v j, j ∈ (setMaxLoops st idx v).jobs →
        j ∈ st.jobs ∨ (1 ≤ j.maxLoops ∧ j.maxLoops ≤ 20))
    ∧ (∀ st v j, j ∈ (setAllMaxLoops st v).jobs → 1 ≤ j.maxLoops ∧ j.maxLoops ≤ 20) := by
  have hbuild : ∀ pairs g raw, (∀ v, g = some v → 1 ≤ v ∧ v ≤ 20) →
      ∀ j ∈ buildJobs pairs g (getConfigMaxLoopsPerUrl raw),
        1 ≤ j.maxLoops ∧ j.maxLoops ≤ 20 := by
    intro pairs g raw hg j hj
    unfold buildJobs at hj
    obtain ⟨p, _, rfl⟩ := List.mem_map.mp hj
    show 1 ≤ g.getD (getConfigMaxLoopsPerUrl raw) ∧ g.getD (getConfigMaxLoopsPerUrl raw) ≤ 20
    cases g with
    | none => exact clampNat_1_20_bounds raw
    | some v => exact hg v rfl
  refine ⟨fun raw => clampNat_1_20_bounds raw, clampNat_1_20_bounds, hbuild, ?_, ?_, ?_⟩
  · intro st validUrl rawPairs g raw rid hg j hj
    unfold loadAndRun at hj
    by_cases hrun : st.running
    · rw [if_pos hrun] at hj
      exact Or.inl hj
    · rw [if_neg hrun] at hj
      set built := buildJobs
        (dedupeByUrl [] ((rawPairs.map
          (fun q => (ofChars (trimChars (chars q.1)), ofChars (trimChars (chars q.2))))).filter
            (fun q => (q.1 != "") && validUrl q.1))) g (getConfigMaxLoopsPerUrl raw) with hbuilt
    -- the remaining jobs come from the built list (possibly re-mapped)
      by_cases hemp : built.isEmpty
      · rw [if_pos hemp] at hj
        exact Or.inl hj
      · rw [if_neg hemp] at hj
        simp only [List.mem_map] at hj
        obtain ⟨bj, hbj, rfl⟩ := hj
        right
        have hb := hbuild _ g raw hg bj hbj
        by_cases h0 : bj.maxLoops = 0
        · simpa [h0] using clampNat_1_20_bounds raw
        · simpa [h0] using hb
  · intro st idx v j hj
    unfold setMaxLoops at hj
    cases hg : st.jobs.get? idx with
    | none => rw [hg] at hj; exact Or.inl hj
    | some job =>
      rw [hg] at hj
      rcases mem_setAt _ _ _ _ hj with h | rfl
      · exact Or.inl h
      · exact Or.inr (clampNat_1_20_bounds v)
  · intro st v j hj
    unfold setAllMaxLoops at hj
    simp only [List.mem_map] at hj
    obtain ⟨j0, _, rfl⟩ := hj
    exact clampNat_1_20_bounds v

/-- C5 amended-theorem witness at concrete inputs (config raw 7; stored
value 25; an in-bounds supplied `globalMaxLoops` of 5). -/
theorem C5_maxLoops_bounds_witness :
    (1 ≤ getConfigMaxLoopsPerUrl 7 ∧ getConfigMaxLoopsPerUrl 7 ≤ 20)
    ∧ (1 ≤ clampNat 25 1 20 ∧ clampNat 25 1 20 ≤ 20)
    ∧ (1 ≤ c5BuiltJob.maxLoops ∧ c5BuiltJob.maxLoops ≤ 20) :=
  ⟨C5_maxLoops_bounds.1 7, C5_maxLoops_bounds.2.1 25,
    C5_maxLoops_bounds.2.2.1 [("https://a", "")] (some 5) 3
      (by intro v hv; injection hv with h; subst h; exact ⟨by omega, by omega⟩)
      c5BuiltJob (by decide)⟩

/-- C5 counterexample: the claim as stated — every acquisition path keeps
`maxLoops` within `1..20` — is false: a `loadAndRun` message supplying
`globalMaxLoops = 21` produces a job whose `maxLoops` is 21. -/
theorem C5_counterexample :
    c5Loaded.jobs.map Job.maxLoops = [21]
    ∧ c5Loaded.jobs.all
        (fun j => decide (1 ≤ j.maxLoops) && decide (j.maxLoops ≤ 20)) = false := by
  decide

/-! ## C6 -/

/-- The common status update is idempotent on the job record. -/
theorem applyStatusMarkers_idem (j : Job) (m : StatusFileMarkers) (ast : AgentStatus) :
    applyStatusMarkers (applyStatusMarkers j m ast) m ast = applyStatusMarkers j m ast := by
  obtain ⟨a, f, t, su, sp, r⟩ := m
  cases f <;> cases su <;> cases sp <;> cases r <;> rfl

/-- The element `jsFindIndexJob` returns satisfies the predicate. -/
theorem jsFindIndexJob_found (p : Job → Bool) (l : List Job) (k : Nat) (j : Job)
    (h : jsFindIndexJob p l = some (k, j)) : p j = true := by
  induction l generalizing k with
  | nil => simp [jsFindIndexJob] at h
  | cons a rest ih =>
    by_cases hp : p a
    · simp only [jsFindIndexJob, if_pos hp, Option.some.injEq, Prod.mk.injEq] at h
      rw [← h.2]
      exact hp
    · simp only [jsFindIndexJob, if_neg hp, Option.map_eq_some'] at h
      obtain ⟨⟨k', j'⟩, hfind, heq⟩ := h
      rw [Prod.mk.injEq] at heq
      obtain ⟨hk, hj⟩ := heq
      subst hj
      exact ih k' hfind

/-- Overwriting the found slot with another element satisfying the predicate
makes `jsFindIndexJob` find that element at the same index. -/
theorem jsFindIndexJob_setAt (p : Job → Bool) (l : List Job) (k : Nat) (j x : Job)
    (h : jsFindIndexJob p l = some (k, j)) (hx : p x = true) :
    jsFindIndexJob p (setAt l k x) = some (k, x) := by
  induction l generalizing k with
  | nil => simp [jsFindIndexJob] at h
  | cons a rest ih =>
    by_cases hp : p a
    · simp only [jsFindIndexJob, if_pos hp, Option.some.injEq, Prod.mk.injEq] at h
      rw [← h.1]
      simp [setAt, jsFindIndexJob, hx]
    · simp only [jsFindIndexJob, if_neg hp, Option.map_eq_some'] at h
      obtain ⟨⟨k', j'⟩, hfind, heq⟩ := h
      rw [Prod.mk.injEq] at heq
      obtain ⟨hk, hj⟩ := heq
      subst hk
      subst hj
      simp [setAt, jsFindIndexJob, if_neg hp, ih k' hfind]

theorem setAt_setAt (l : List Job) (k : Nat) (x y : Job) :
    setAt (setAt l k x) k y = setAt l k y := by
  induction l generalizing k with
  | nil => rfl
  | cons a rest ih =>
    cases k with
    | zero => rfl
    | succ n => simp [setAt, ih]

theorem get?_setAt (l : List Job) (k : Nat) (x j : Job) (h : l.get? k = some j) :
    (setAt l k x).get? k = some x := by
  induction l generalizing k with
  | nil => simp at h
  | cons a rest ih =>
    cases k with
    | zero => rfl
    | succ n => exact ih n h

/-- Writing back the element already stored at a slot changes nothing. -/
theorem setAt_get_same (l : List Job) (k : Nat) (j : Job) (h : l.get? k = some j) :
    setAt l k j = l := by
  induction l generalizing k with
  | nil => rfl
  | cons a rest ih =>
    cases k with
    | zero =>
      simp only [List.get?, Option.some.injEq] at h
      subst h
      rfl
    | succ n =>
      simp only [List.get?] at h
      simp [setAt, ih n h]

/-- The poll update is idempotent on the job record. -/
theorem pollJobUpdate_idem (j : Job) (fc : Option String) :
    pollJobUpdate (pollJobUpdate j fc) fc = pollJobUpdate j fc := by
  unfold pollJobUpdate
  by_cases hr : j.runId = ""
  · simp [hr]
  · rw [if_neg hr]
    cases fc with
    | none => simp [hr]
    | some content =>
      cases hm : (parseStatusFile content).agentStatus with
      | none => simp [hm, hr]
      | some ast =>
        simp only [hm]
        have hrr : (applyStatusMarkers j (parseStatusFile content) ast).runId = j.runId := rfl
        rw [if_neg (hrr ▸ hr)]
        simp [hm, applyStatusMarkers_idem]

/-- Branch equation: no item label in the filename. -/
theorem onStatusFileEvent_noBase (st : PanelState) (p c : String)
    (h : matchStatusBasename (basename p) = none) :
    onStatusFileEvent st p c = st := by
  unfold onStatusFileEvent
  simp only [h]

/-- Branch equation: no job matches the item label and the active run id. -/
theorem onStatusFileEvent_noJob (st : PanelState) (p c itemLabel : String)
    (h : matchStatusBasename (basename p) = some itemLabel)
    (h2 : jsFindIndexJob (statusJobPred itemLabel st.runId) st.jobs = none) :
    onStatusFileEvent st p c = st := by
  unfold onStatusFileEvent
  simp only [h, h2]

/-- Branch equation: the artifact lacks the mandatory marker. -/
theorem onStatusFileEvent_noMarker (st : PanelState) (p c itemLabel : String) (k : Nat)
    (job : Job)
    (h : matchStatusBasename (basename p) = some itemLabel)
    (h2 : jsFindIndexJob (statusJobPred itemLabel st.runId) st.jobs = some (k, job))
    (h3 : (parseStatusFile c).agentStatus = none) :
    onStatusFileEvent st p c = st := by
  unfold onStatusFileEvent
  simp only [h, h2, h3]

/-- Branch equation: the artifact carries the mandatory marker. -/
theorem onStatusFileEvent_marker (st : PanelState) (p c itemLabel : String) (k : Nat)
    (job : Job) (ast : AgentStatus)
    (h : matchStatusBasename (basename p) = some itemLabel)
    (h2 : jsFindIndexJob (statusJobPred itemLabel st.runId) st.jobs = some (k, job))
    (h3 : (parseStatusFile c).agentStatus = some ast) :
    onStatusFileEvent st p c
      = { st with jobs := setAt st.jobs k (applyStatusMarkers job (parseStatusFile c) ast) } := by
  unfold onStatusFileEvent
  simp only [h, h2, h3]

/-- Branch equation: the polled job index does not exist. -/
theorem pollStatusFile_noJob (st : PanelState) (jobIdx : Nat) (fc : Option String)
    (h : st.jobs.get? jobIdx = none) :
    pollStatusFile st jobIdx fc = st := by
  unfold pollStatusFile
  simp only [h]

/-- Branch equation: the polled job exists. -/
theorem pollStatusFile_some (st : PanelState) (jobIdx : Nat) (fc : Option String) (job : Job)
    (h : st.jobs.get? jobIdx = some job) :
    pollStatusFile st jobIdx fc
      = { st with jobs := setAt st.jobs jobIdx (pollJobUpdate job fc) } := by
  unfold pollStatusFile
  simp only [h]

/-- C6: the status handlers are idempotent — delivering the same status
artifact twice (in particular a well-formed one, with the mandatory marker)
leaves every field of every job unchanged after the second delivery, for
both the watcher handler `onStatusFileEvent` and the polling handler
`pollStatusFile`. -/
theorem C6_status_handlers_idempotent :
    (∀ (st : PanelState) (statusPath content : String),
      onStatusFileEvent (onStatusFileEvent st statusPath content) statusPath content
        = onStatusFileEvent st statusPath content)
    ∧ (∀ (st : PanelState) (jobIdx : Nat) (fc : Option String),
      pollStatusFile (pollStatusFile st jobIdx fc) jobIdx fc
        = pollStatusFile st jobIdx fc) := by
  constructor
  · intro st statusPath content
    cases hb : matchStatusBasename (basename statusPath) with
    | none =>
      have h1 := onStatusFileEvent_noBase st statusPath content hb
      rw [h1]
      exact h1
    | some itemLabel =>
      cases hf : jsFindIndexJob (statusJobPred itemLabel st.runId) st.jobs with
      | none =>
        have h1 := onStatusFileEvent_noJob st statusPath content itemLabel hb hf
        rw [h1]
        exact h1
      | some kj =>
        obtain ⟨k, job⟩ := kj
        cases hm : (parseStatusFile content).agentStatus with
        | none =>
          have h1 := onStatusFileEvent_noMarker st statusPath content itemLabel k job hb hf hm
          rw [h1]
          exact h1
        | some ast =>
          have h1 := onStatusFileEvent_marker st statusPath content itemLabel k job ast hb hf hm
          rw [h1]
          have hpred : statusJobPred itemLabel st.runId
              (applyStatusMarkers job (parseStatusFile content) ast) = true := by
            have hpj := jsFindIndexJob_found _ _ _ _ hf
            simpa [statusJobPred, applyStatusMarkers] using hpj
          have hf2 := jsFindIndexJob_setAt (statusJobPred itemLabel st.runId) st.jobs k job
            (applyStatusMarkers job (parseStatusFile content) ast) hf hpred
          have h2 := onStatusFileEvent_marker
            { st with jobs := setAt st.jobs k (applyStatusMarkers job (parseStatusFile content) ast) }
            statusPath content itemLabel k
            (applyStatusMarkers job (parseStatusFile content) ast) ast hb hf2 hm
          rw [h2, applyStatusMarkers_idem, setAt_setAt]
  · intro st jobIdx fc
    cases hg : st.jobs.get? jobIdx with
    | none =>
      have h1 := pollStatusFile_noJob st jobIdx fc hg
      rw [h1]
      exact h1
    | some job =>
      have h1 := pollStatusFile_some st jobIdx fc job hg
      rw [h1]
      have hg2 := get?_setAt st.jobs jobIdx (pollJobUpdate job fc) job hg
      have h2 := pollStatusFile_some
        { st with jobs := setAt st.jobs jobIdx (pollJobUpdate job fc) }
        jobIdx fc (pollJobUpdate job fc) hg2
      rw [h2, pollJobUpdate_idem, setAt_setAt]

/-- C6 witness at a concrete well-formed artifact delivery. -/
theorem C6_status_handlers_idempotent_witness :
    onStatusFileEvent (onStatusFileEvent c6State ".agent-loop-runner/status/r6/001.status.md"
        "AGENT_STATUS: FAIL\nReason: x")
      ".agent-loop-runner/status/r6/001.status.md" "AGENT_STATUS: FAIL\nReason: x"
    = onStatusFileEvent c6State ".agent-loop-runner/status/r6/001.status.md"
        "AGENT_STATUS: FAIL\nReason: x" :=
  C6_status_handlers_idempotent.1 c6State ".agent-loop-runner/status/r6/001.status.md"
    "AGENT_STATUS: FAIL\nReason: x"

/-! ## C7 -/

/-- The poll update leaves the job unchanged when the file is absent or its
content lacks the mandatory marker. -/
theorem pollJobUpdate_noMarker (j : Job) (fc : Option String)
    (hfc : ∀ c, fc = some c → (parseStatusFile c).agentStatus = none) :
    pollJobUpdate j fc = j := by
  unfold pollJobUpdate
  by_cases hr : j.runId = ""
  · simp [hr]
  · rw [if_neg hr]
    cases fc with
    | none => rfl
    | some c => simp [hfc c rfl]

/-- C7: a delivered status artifact whose text lacks the mandatory PASS/FAIL
marker is ignored — both status handlers return without modifying any field
of any job, so every job's status remains whatever it was. -/
theorem C7_missing_marker_ignored (st : PanelState) (statusPath content : String)
    (jobIdx : Nat) (fc : Option String)
    (hc : (parseStatusFile content).agentStatus = none)
    (hfc : ∀ c, fc = some c → (parseStatusFile c).agentStatus = none) :
    onStatusFileEvent st statusPath content = st ∧ pollStatusFile st jobIdx fc = st := by
  constructor
  · cases hb : matchStatusBasename (basename statusPath) with
    | none => exact onStatusFileEvent_noBase st _ _ hb
    | some itemLabel =>
      cases hf : jsFindIndexJob (statusJobPred itemLabel st.runId) st.jobs with
      | none => exact onStatusFileEvent_noJob st _ _ _ hb hf
      | some kj =>
        obtain ⟨k, job⟩ := kj
        exact onStatusFileEvent_noMarker st _ _ _ k job hb hf hc
  · cases hg : st.jobs.get? jobIdx with
    | none => exact pollStatusFile_noJob st jobIdx fc hg
    | some job =>
      rw [pollStatusFile_some st jobIdx fc job hg,
        pollJobUpdate_noMarker job fc hfc, setAt_get_same st.jobs jobIdx job hg]

/-- C7 witness: a concrete artifact with no marker line leaves a concrete
state untouched through both handlers. -/
theorem C7_missing_marker_ignored_witness :
    (parseStatusFile "Summary: started\nno marker here").agentStatus = none
    ∧ (onStatusFileEvent c6State ".agent-loop-runner/status/r6/001.status.md"
          "Summary: started\nno marker here" = c6State
       ∧ pollStatusFile c6State 0 (some "Summary: started\nno marker here") = c6State) :=
  ⟨by decide,
    C7_missing_marker_ignored c6State ".agent-loop-runner/status/r6/001.status.md"
      "Summary: started\nno marker here" 0 (some "Summary: started\nno marker here")
      (by decide)
      (by intro c hcc; injection hcc with h; subst h; decide)⟩

/-! ## C9 -/

/-- While the loop runs (every tick has `running = true`), no status file
with the mandatory marker ever appears, and some tick's clock exceeds the
wait-start by more than the configured (positive) timeout, the wait loop
returns `Failed` having applied the timeout update to the job. -/
theorem waitForTerminalStatus_timeout (timeoutMs waitStart : Nat) (job : Job)
    (ht : 0 < timeoutMs) (hnt : terminalStatus job.status = false) :
    ∀ ticks : List WaitTick,
      (∀ t ∈ ticks, t.running = true) →
      (∀ t ∈ ticks, ∀ c, t.fileContent = some c → (parseStatusFile c).agentStatus = none) →
      (∃ t ∈ ticks, timeoutMs < t.now - waitStart) →
      waitForTerminalStatus timeoutMs waitStart job ticks
        = (timeoutFailUpdate timeoutMs job, some JobStatus.Failed) := by
  intro ticks
  induction ticks with
  | nil =>
    intro _ _ hexp
    obtain ⟨t, htm, _⟩ := hexp
    exact absurd htm (List.not_mem_nil t)
  | cons t rest ih =>
    intro hrun hnc hexp
    have hr : t.running = true := hrun t (List.mem_cons_self t rest)
    by_cases hto : timeoutMs < t.now - waitStart
    · unfold waitForTerminalStatus
      rw [if_neg (by simp [hr]), if_neg (by simp [hnt]), if_pos ⟨ht, hto⟩]
    · have hpoll := pollJobUpdate_noMarker job t.fileContent (hnc t (List.mem_cons_self t rest))
      have hexp' : ∃ x ∈ rest, timeoutMs < x.now - waitStart := by
        obtain ⟨x, hx, hxo⟩ := hexp
        rcases List.mem_cons.mp hx with rfl | hx'
        · exact absurd hxo hto
        · exact ⟨x, hx', hxo⟩
      have hnd : ¬ (job.status = JobStatus.Done ∨ job.status = JobStatus.Failed) := by
        intro hcon
        rcases hcon with h | h <;> rw [h] at hnt <;> simp [terminalStatus] at hnt
      unfold waitForTerminalStatus
      rw [if_neg (by simp [hr]), if_neg (by simp [hnt]),
        if_neg (fun hcon => hto hcon.2)]
      simp only [hpoll]
      rw [if_neg hnd]
      exact ih (fun x hx => hrun x (List.mem_cons_of_mem t hx))
        (fun x hx => hnc x (List.mem_cons_of_mem t hx)) hexp'

/-- C9: with a per-job timeout configured greater than zero and no terminal
status arriving within the budget measured from wait-start, the job is
forced to `Failed` carrying the synthesized timeout failure message,
independent of any external signal; and when attempts remain the post-wait
branch of the attempt loop retries the job automatically. -/
theorem C9_timeout_forces_failed_then_retry (timeoutMs waitStart : Nat) (job : Job)
    (ticks : List WaitTick)
    (ht : 0 < timeoutMs)
    (hnt : terminalStatus job.status = false)
    (hrun : ∀ t ∈ ticks, t.running = true)
    (hnc : ∀ t ∈ ticks, ∀ c, t.fileContent = some c → (parseStatusFile c).agentStatus = none)
    (hexp : ∃ t ∈ ticks, timeoutMs < t.now - waitStart) :
    (waitForTerminalStatus timeoutMs waitStart job ticks).2 = some JobStatus.Failed
    ∧ (waitForTerminalStatus timeoutMs waitStart job ticks).1.status = JobStatus.Failed
    ∧ (waitForTerminalStatus timeoutMs waitStart job ticks).1.failureMessage
        = some (timeoutMessage timeoutMs)
    ∧ (∀ attempt maxAttempts, attempt < maxAttempts →
        afterWait JobStatus.Failed attempt maxAttempts
          = AttemptDecision.retryAttempt ("Attempt " ++ toString attempt ++ " failed, retrying...")) := by
  have key := waitForTerminalStatus_timeout timeoutMs waitStart job ht hnt ticks hrun hnc hexp
  rw [key]
  refine ⟨rfl, rfl, rfl, ?_⟩
  intro attempt maxAttempts hlt
  unfold afterWait
  rw [if_neg (by simp), if_pos ⟨rfl, hlt⟩]

/-- C9 witness: the scenario of the spec (timeout 1000 ms, no artifact, one
attempt of two used) at concrete inputs. -/
theorem C9_timeout_forces_failed_then_retry_witness :
    (0 < 1000)
    ∧ (terminalStatus c9Job.status = false)
    ∧ ((waitForTerminalStatus 1000 0 c9Job c9Ticks).2 = some JobStatus.Failed
       ∧ (waitForTerminalStatus 1000 0 c9Job c9Ticks).1.status = JobStatus.Failed
       ∧ (waitForTerminalStatus 1000 0 c9Job c9Ticks).1.failureMessage
           = some (timeoutMessage 1000)
       ∧ (∀ attempt maxAttempts, attempt < maxAttempts →
           afterWait JobStatus.Failed attempt maxAttempts
             = AttemptDecision.retryAttempt ("Attempt " ++ toString attempt ++ " failed, retrying..."))) :=
  ⟨by decide, by decide,
    C9_timeout_forces_failed_then_retry 1000 0 c9Job c9Ticks (by decide) (by decide)
      (by intro t htk; simp only [c9Ticks, List.mem_singleton] at htk; subst htk; rfl)
      (by intro t htk c hcc; simp only [c9Ticks, List.mem_singleton] at htk; subst htk
          simp at hcc)
      ⟨{ running := true, now := 1500, fileContent := none }, by decide, by decide⟩⟩


/-! ## C8 -/

theorem qualifies_startedAt (runId : String) (w n : Nat) (j : Job)
    (h : qualifiesForMapping runId w n j = true) : ∃ s, j.startedAt = some s := by
  cases hs : j.startedAt with
  | some s => exact ⟨s, rfl⟩
  | none =>
    unfold qualifiesForMapping at h
    rw [hs] at h
    simp at h

theorem mapFeatureGo_cons (runId : String) (w n i : Nat) (j : Job) (rest : List Job)
    (acc : Option (Nat × Nat)) :
    mapFeatureGo runId w n i (j :: rest) acc
      = mapFeatureGo runId w n (i + 1) rest
          (stepBest i (qualifiesForMapping runId w n j) j.startedAt acc) := rfl

theorem stepBest_lt (i s bi bs : Nat) (h : bs < s) :
    stepBest i true (some s) (some (bi, bs)) = some (i, s) := by
  show (if bs < s then some (i, s) else some (bi, bs)) = some (i, s)
  rw [if_pos h]

theorem stepBest_ge (i s bi bs : Nat) (h : ¬ bs < s) :
    stepBest i true (some s) (some (bi, bs)) = some (bi, bs) := by
  show (if bs < s then some (i, s) else some (bi, bs)) = some (bi, bs)
  rw [if_neg h]

/-- Once a candidate is held, the scan never returns `none`. -/
theorem mapFeatureGo_some_ne_none (runId : String) (w n : Nat) :
    ∀ (l : List Job) (i : Nat) (b : Nat × Nat),
      mapFeatureGo runId w n i l (some b) ≠ none := by
  intro l
  induction l with
  | nil => intro i b h; exact Option.noConfusion h
  | cons j rest ih =>
    intro i b h
    rw [mapFeatureGo_cons] at h
    by_cases hq : qualifiesForMapping runId w n j
    · rw [hq] at h
      obtain ⟨s, hs⟩ := qualifies_startedAt runId w n j hq
      rw [hs] at h
      obtain ⟨bi, bs⟩ := b
      by_cases hlt : bs < s
      · rw [stepBest_lt i s bi bs hlt] at h
        exact ih (i + 1) (i, s) h
      · rw [stepBest_ge i s bi bs hlt] at h
        exact ih (i + 1) (bi, bs) h
    · rw [Bool.not_eq_true] at hq
      rw [hq] at h
      exact ih (i + 1) b h

/-- The scan returns `none` from an empty accumulator iff no job qualifies. -/
theorem mapFeatureGo_none_iff (runId : String) (w n : Nat) :
    ∀ (l : List Job) (i : Nat),
      mapFeatureGo runId w n i l none = none
        ↔ ∀ j ∈ l, qualifiesForMapping runId w n j = false := by
  intro l
  induction l with
  | nil => intro i; simp [mapFeatureGo]
  | cons j rest ih =>
    intro i
    rw [mapFeatureGo_cons]
    by_cases hq : qualifiesForMapping runId w n j
    · rw [hq]
      obtain ⟨s, hs⟩ := qualifies_startedAt runId w n j hq
      rw [hs]
      show mapFeatureGo runId w n (i + 1) rest (some (i, s)) = none ↔ _
      constructor
      · intro h
        exact absurd h (mapFeatureGo_some_ne_none runId w n rest (i + 1) (i, s))
      · intro h
        have := h j (List.mem_cons_self j rest)
        rw [hq] at this
        exact Bool.noConfusion this
    · rw [Bool.not_eq_true] at hq
      rw [hq]
      show mapFeatureGo runId w n (i + 1) rest none = none ↔ _
      rw [ih (i + 1)]
      constructor
      · intro h x hx
        rcases List.mem_cons.mp hx with rfl | hx'
        · exact hq
        · exact h x hx'
      · intro h x hx
        exact h x (List.mem_cons_of_mem j hx)

/-- A returned candidate is the accumulator or a qualifying job of the list,
at its absolute index, with its start time. -/
theorem mapFeatureGo_some_spec (runId : String) (w n : Nat) :
    ∀ (l : List Job) (i : Nat) (acc : Option (Nat × Nat)) (bi bs : Nat),
      mapFeatureGo runId w n i l acc = some (bi, bs) →
      acc = some (bi, bs)
        ∨ ∃ k j, l.get? k = some j ∧ bi = i + k
            ∧ qualifiesForMapping runId w n j = true ∧ j.startedAt = some bs := by
  intro l
  induction l with
  | nil => intro i acc bi bs h; exact Or.inl h
  | cons j rest ih =>
    intro i acc bi bs h
    rw [mapFeatureGo_cons] at h
    by_cases hq : qualifiesForMapping runId w n j
    · rw [hq] at h
      obtain ⟨s, hs⟩ := qualifies_startedAt runId w n j hq
      rw [hs] at h
      have headCase : some (i, s) = some (bi, bs) →
          (acc = some (bi, bs)
            ∨ ∃ k x, (j :: rest).get? k = some x ∧ bi = i + k
                ∧ qualifiesForMapping runId w n x = true ∧ x.startedAt = some bs) := by
        intro hacc
        rw [Option.some.injEq, Prod.mk.injEq] at hacc
        right
        exact ⟨0, j, rfl, by omega, hq, by rw [hs, hacc.2]⟩
      have tailCase : (∃ k x, rest.get? k = some x ∧ bi = (i + 1) + k
            ∧ qualifiesForMapping runId w n x = true ∧ x.startedAt = some bs) →
          (acc = some (bi, bs)
            ∨ ∃ k x, (j :: rest).get? k = some x ∧ bi = i + k
                ∧ qualifiesForMapping runId w n x = true ∧ x.startedAt = some bs) := by
        rintro ⟨k, x, hget, hbi, hqx, hsx⟩
        right
        exact ⟨k + 1, x, hget, by omega, hqx, hsx⟩
      cases acc with
      | none =>
        have hstep : stepBest i true (some s) none = some (i, s) := rfl
        rw [hstep] at h
        rcases ih (i + 1) (some (i, s)) bi bs h with hacc | htail
        · exact headCase hacc
        · exact tailCase htail
      | some b =>
        obtain ⟨b0, s0⟩ := b
        by_cases hlt : s0 < s
        · rw [stepBest_lt i s b0 s0 hlt] at h
          rcases ih (i + 1) (some (i, s)) bi bs h with hacc | htail
          · exact headCase hacc
          · exact tailCase htail
        · rw [stepBest_ge i s b0 s0 hlt] at h
          rcases ih (i + 1) (some (b0, s0)) bi bs h with hacc | htail
          · exact Or.inl hacc
          · exact tailCase htail
    · rw [Bool.not_eq_true] at hq
      rw [hq] at h
      rcases ih (i + 1) acc bi bs h with hacc | ⟨k, x, hget, hbi, hqx, hsx⟩
      · exact Or.inl hacc
      · right
        exact ⟨k + 1, x, hget, by omega, hqx, hsx⟩

/-- The returned best start bounds every qualifying job's start time and the
accumulator's start time. -/
theorem mapFeatureGo_max (runId : String) (w n : Nat) :
    ∀ (l : List Job) (i : Nat) (acc : Option (Nat × Nat)) (bi bs : Nat),
      mapFeatureGo runId w n i l acc = some (bi, bs) →
      ((∀ j ∈ l, qualifiesForMapping runId w n j = true →
          ∀ s, j.startedAt = some s → s ≤ bs)
        ∧ (∀ b0 s0, acc = some (b0, s0) → s0 ≤ bs)) := by
  intro l
  induction l with
  | nil =>
    intro i acc bi bs h
    have hacc : acc = some (bi, bs) := h
    constructor
    · intro x hx
      exact absurd hx (List.not_mem_nil x)
    · intro b0 s0 h0
      rw [h0, Option.some.injEq, Prod.mk.injEq] at hacc
      omega
  | cons j rest ih =>
    intro i acc bi bs h
    rw [mapFeatureGo_cons] at h
    by_cases hq : qualifiesForMapping runId w n j
    · rw [hq] at h
      obtain ⟨s, hs⟩ := qualifies_startedAt runId w n j hq
      rw [hs] at h
      cases acc with
      | none =>
        have hstep : stepBest i true (some s) none = some (i, s) := rfl
        rw [hstep] at h
        obtain ⟨hrest, haccb⟩ := ih (i + 1) (some (i, s)) bi bs h
        have hsle : s ≤ bs := haccb i s rfl
        constructor
        · intro x hx hqx s' hsx
          rcases List.mem_cons.mp hx with rfl | hx'
          · rw [hs, Option.some.injEq] at hsx
            omega
          · exact hrest x hx' hqx s' hsx
        · intro b0 s0 h0
          exact Option.noConfusion h0
      | some b =>
        obtain ⟨b0, s0⟩ := b
        by_cases hlt : s0 < s
        · rw [stepBest_lt i s b0 s0 hlt] at h
          obtain ⟨hrest, haccb⟩ := ih (i + 1) (some (i, s)) bi bs h
          have hsle : s ≤ bs := haccb i s rfl
          constructor
          · intro x hx hqx s' hsx
            rcases List.mem_cons.mp hx with rfl | hx'
            · rw [hs, Option.some.injEq] at hsx
              omega
            · exact hrest x hx' hqx s' hsx
          · intro b1 s1 h0
            rw [Option.some.injEq, Prod.mk.injEq] at h0
            omega
        · rw [stepBest_ge i s b0 s0 hlt] at h
          obtain ⟨hrest, haccb⟩ := ih (i + 1) (some (b0, s0)) bi bs h
          have hs0le : s0 ≤ bs := haccb b0 s0 rfl
          constructor
          · intro x hx hqx s' hsx
            rcases List.mem_cons.mp hx with rfl | hx'
            · rw [hs, Option.some.injEq] at hsx
              omega
            · exact hrest x hx' hqx s' hsx
          · intro b1 s1 h0
            rw [Option.some.injEq, Prod.mk.injEq] at h0
            omega
    · rw [Bool.not_eq_true] at hq
      rw [hq] at h
      obtain ⟨hrest, haccb⟩ := ih (i + 1) acc bi bs h
      constructor
      · intro x hx hqx s' hsx
        rcases List.mem_cons.mp hx with rfl | hx'
        · rw [hqx] at hq
          exact Bool.noConfusion hq
        · exact hrest x hx' hqx s' hsx
      · exact haccb

/-- Branch equation: no job qualifies, the event is dropped. -/
theorem refreshFromProgressFile_noneEq (st : PanelState) (w now : Nat) (p f : String)
    (hf : inferFeatureNameFromProgressPath p = some f) (hfe : ¬ (f = ""))
    (hnm : mapLookup st.featureToJob f = none)
    (hmap : mapFeatureToMostRecentUnmappedRunningJob st.jobs st.runId w now = none) :
    refreshFromProgressFile st w now p = st := by
  unfold refreshFromProgressFile
  simp only [hf, if_neg hfe, hnm, hmap]

/-- Branch equation: a job qualifies and the feature is mapped to it. -/
theorem refreshFromProgressFile_someEq (st : PanelState) (w now : Nat) (p f : String)
    (i : Nat) (j : Job)
    (hf : inferFeatureNameFromProgressPath p = some f) (hfe : ¬ (f = ""))
    (hnm : mapLookup st.featureToJob f = none)
    (hmap : mapFeatureToMostRecentUnmappedRunningJob st.jobs st.runId w now = some i)
    (hj : st.jobs.get? i = some j) :
    refreshFromProgressFile st w now p
      = { st with
          featureToJob := st.featureToJob ++ [(f, i)]
          jobs := setAt st.jobs i (mappedJobUpdate j f p now) } := by
  unfold refreshFromProgressFile
  simp only [hf, if_neg hfe, hnm, hmap, hj]

/-- C8: on first sight of a feature name not yet in the feature map, the
feature is mapped to the job with the greatest `startedAt` among the jobs of
the active run that are `Running` or `Planning`, unmapped, started, and
within the configured window; when no job qualifies, no map entry is added
and no job field changes. -/
theorem C8_progress_feature_mapping (st : PanelState) (windowMs now : Nat)
    (progressPath f : String)
    (hf : inferFeatureNameFromProgressPath progressPath = some f)
    (hfe : ¬ (f = ""))
    (hnm : mapLookup st.featureToJob f = none) :
    (mapFeatureToMostRecentUnmappedRunningJob st.jobs st.runId windowMs now = none
        ↔ ∀ j ∈ st.jobs, qualifiesForMapping st.runId windowMs now j = false)
    ∧ (mapFeatureToMostRecentUnmappedRunningJob st.jobs st.runId windowMs now = none →
         refreshFromProgressFile st windowMs now progressPath = st)
    ∧ (∀ bi, mapFeatureToMostRecentUnmappedRunningJob st.jobs st.runId windowMs now = some bi →
         ∃ j, st.jobs.get? bi = some j
           ∧ qualifiesForMapping st.runId windowMs now j = true
           ∧ (∀ j' ∈ st.jobs, qualifiesForMapping st.runId windowMs now j' = true →
               ∀ s s', j.startedAt = some s → j'.startedAt = some s' → s' ≤ s)
           ∧ (refreshFromProgressFile st windowMs now progressPath).featureToJob
               = st.featureToJob ++ [(f, bi)]
           ∧ (refreshFromProgressFile st windowMs now progressPath).jobs
               = setAt st.jobs bi (mappedJobUpdate j f progressPath now)) := by
  refine ⟨?_, ?_, ?_⟩
  · unfold mapFeatureToMostRecentUnmappedRunningJob
    rw [Option.map_eq_none']
    exact mapFeatureGo_none_iff st.runId windowMs now st.jobs 0
  · intro hmap
    exact refreshFromProgressFile_noneEq st windowMs now progressPath f hf hfe hnm hmap
  · intro bi hmap
    unfold mapFeatureToMostRecentUnmappedRunningJob at hmap
    rw [Option.map_eq_some'] at hmap
    obtain ⟨⟨bi', bs⟩, hgo, hfst⟩ := hmap
    have hfst' : bi' = bi := hfst
    rcases mapFeatureGo_some_spec st.runId windowMs now st.jobs 0 none bi' bs hgo with
      hacc | ⟨k, j, hget, hbik, hqj, hsj⟩
    · exact Option.noConfusion hacc
    · have hkbi : k = bi := by omega
      rw [hkbi] at hget
      have hmap' : mapFeatureToMostRecentUnmappedRunningJob st.jobs st.runId windowMs now
          = some bi := by
        unfold mapFeatureToMostRecentUnmappedRunningJob
        rw [hgo]
        exact congrArg some hfst'
      obtain ⟨hbound, -⟩ := mapFeatureGo_max st.runId windowMs now st.jobs 0 none bi' bs hgo
      refine ⟨j, hget, hqj, ?_, ?_, ?_⟩
      · intro j' hj' hqj' s s' hsjs hs'
        rw [hsj, Option.some.injEq] at hsjs
        have := hbound j' hj' hqj' s' hs'
        omega
      · rw [refreshFromProgressFile_someEq st windowMs now progressPath f bi j hf hfe hnm
          hmap' hget]
      · rw [refreshFromProgressFile_someEq st windowMs now progressPath f bi j hf hfe hnm
          hmap' hget]

/-- C8 witness: the mapping behaviour at a concrete state and progress
artifact. -/
theorem C8_progress_feature_mapping_witness :
    (inferFeatureNameFromProgressPath "tmp/Widgets-progress.md" = some "Widgets")
    ∧ (¬ ("Widgets" = ""))
    ∧ (mapLookup c8State.featureToJob "Widgets" = none)
    ∧ ((mapFeatureToMostRecentUnmappedRunningJob c8State.jobs c8State.runId 120000 600 = none
          ↔ ∀ j ∈ c8State.jobs, qualifiesForMapping c8State.runId 120000 600 j = false)
      ∧ (mapFeatureToMostRecentUnmappedRunningJob c8State.jobs c8State.runId 120000 600 = none →
           refreshFromProgressFile c8State 120000 600 "tmp/Widgets-progress.md" = c8State)
      ∧ (∀ bi, mapFeatureToMostRecentUnmappedRunningJob c8State.jobs c8State.runId 120000 600
             = some bi →
           ∃ j, c8State.jobs.get? bi = some j
             ∧ qualifiesForMapping c8State.runId 120000 600 j = true
             ∧ (∀ j' ∈ c8State.jobs, qualifiesForMapping c8State.runId 120000 600 j' = true →
                 ∀ s s', j.startedAt = some s → j'.startedAt = some s' → s' ≤ s)
             ∧ (refreshFromProgressFile c8State 120000 600 "tmp/Widgets-progress.md").featureToJob
                 = c8State.featureToJob ++ [("Widgets", bi)]
             ∧ (refreshFromProgressFile c8State 120000 600 "tmp/Widgets-progress.md").jobs
                 = setAt c8State.jobs bi (mappedJobUpdate j "Widgets" "tmp/Widgets-progress.md" 600))) :=
  ⟨by decide, by decide, by decide,
    C8_progress_feature_mapping c8State 120000 600 "tmp/Widgets-progress.md" "Widgets"
      (by decide) (by decide) (by decide)⟩

end AgentLoopRunner
